import Mathlib

/-!
Verification of the video-editor core of the screen-share web app.

The development shallowly embeds the code under analysis:

* `EnhancedVideoEditor` — the browser editor component
  (src/components/EnhancedVideoEditor.tsx): the ffmpeg argument-list
  translator built inside `trimVideo`, the percent-based trim-range
  handlers `handleStartTimeChange` / `handleEndTimeChange`, the playhead
  clamps `handleSeek` / `handleTimeUpdate`, and the processing-state /
  progress tracking of one processing run.
* `Timeline` — the timeline widget (src/components/Timeline.tsx):
  the drag handler `handleDocumentMouseMove` and the time/percent
  conversions `getPositionFromTime` / `getTimeFromPosition`.
* `FFmpegLib` — the server-side fluent-ffmpeg builder
  (src/lib/ffmpeg.ts): `processVideo`.

Numbers are modelled as rationals (`ℚ`).  Where JavaScript division by
zero matters (the Timeline conversions), an explicit extended-number
type `JSNum` with IEEE-style infinities and NaN is used instead, since
`ℚ` division by zero silently yields 0.  String interpolations of
numeric values into ffmpeg argument strings are modelled by tokens that
carry the exact rational payload.
-/

namespace VideoApp

/-- Output quality level (low | medium | high in src/types/video.ts). -/
inductive Quality where
  | low
  | medium
  | high
deriving DecidableEq, Repr

/-- Edit options record (VideoEditOptions in src/types/video.ts).
In the browser editor `startTime`/`endTime` are percentages of the total
duration; in the server library they are seconds.  The numeric payloads
are rationals. -/
structure VideoEditOptions where
  startTime : ℚ
  endTime : ℚ
  volume : ℚ
  fadeIn : ℚ
  fadeOut : ℚ
  speed : ℚ
  quality : Quality
deriving DecidableEq, Repr

/-- Direction of a fade filter: t=in or t=out. -/
inductive FadeDir where
  | tin
  | tout
deriving DecidableEq, Repr, BEq

/-- One `fade=t=<dir>:st=<st>:d=<d>` ffmpeg filter directive. -/
structure FadeSpec where
  dir : FadeDir
  st : ℚ
  d : ℚ
deriving DecidableEq, Repr, BEq

/-- One element of the ffmpeg argument list built by
`EnhancedVideoEditor.trimVideo`.  Literal strings are `s`; arguments that
interpolate a number keep the exact rational payload. -/
inductive Tok where
  /-- a literal string argument such as "-i" or "libx264" -/
  | s (x : String)
  /-- a stringified number such as startTime.toString() -/
  | num (x : ℚ)
  /-- the string `volume=<factor>` -/
  | volumeFilter (factor : ℚ)
  /-- the string `setpts=<invSpeed>*PTS` -/
  | setptsFilter (invSpeed : ℚ)
  /-- the string `atempo=<factor>` (never produced by the browser editor,
  present in the vocabulary so its absence is expressible) -/
  | atempoFilter (factor : ℚ)
  /-- the comma-joined fade filter chain passed after "-vf" -/
  | fadeChain (fs : List FadeSpec)
deriving DecidableEq, Repr

namespace EnhancedVideoEditor

/-- Fixed leading arguments of the ffmpeg command
(EnhancedVideoEditor.tsx lines 251-258). -/
def baseArgs (inputFileName : String) (startTime trimDuration : ℚ) : List Tok :=
  [.s "-i", .s inputFileName,
   .s "-ss", .num startTime,
   .s "-t", .num trimDuration,
   .s "-c:v", .s "libx264",
   .s "-c:a", .s "aac",
   .s "-avoid_negative_ts", .s "make_zero"]

/-- Volume arguments (lines 261-263): pushed only when volume !== 100. -/
def volArgs (volume : ℚ) : List Tok :=
  if volume ≠ 100 then [.s "-af", .volumeFilter (volume / 100)] else []

/-- Speed arguments (lines 265-267): pushed only when speed !== 1.
Only the video setpts filter is pushed; no audio atempo filter. -/
def speedArgs (speed : ℚ) : List Tok :=
  if speed ≠ 1 then [.s "-filter:v", .setptsFilter (1 / speed)] else []

/-- The fadeFilter array built at lines 271-277: a fade-in directive at
st=0 when fadeIn > 0, then a fade-out directive at
st = trimDuration - fadeOut when fadeOut > 0 (no clamping). -/
def fadeFilterList (fadeIn fadeOut trimDuration : ℚ) : List FadeSpec :=
  (if 0 < fadeIn then [⟨.tin, 0, fadeIn⟩] else []) ++
  (if 0 < fadeOut then [⟨.tout, trimDuration - fadeOut, fadeOut⟩] else [])

/-- Fade arguments (lines 270-281): when fadeIn > 0 or fadeOut > 0, the
fade filter chain is pushed after "-vf" if it is nonempty. -/
def fadeArgs (fadeIn fadeOut trimDuration : ℚ) : List Tok :=
  if 0 < fadeIn ∨ 0 < fadeOut then
    (let fadeFilter := fadeFilterList fadeIn fadeOut trimDuration
     if fadeFilter ≠ [] then [.s "-vf", .fadeChain fadeFilter] else [])
  else []

/-- The complete ffmpeg argument list built by trimVideo
(EnhancedVideoEditor.tsx lines 231-283) from the edit options, the
resolved duration in seconds, and the video file name (which only
selects the input file name). -/
def buildArgs (o : VideoEditOptions) (duration : ℚ) (videoName : String) : List Tok :=
  let startTime := o.startTime / 100 * duration
  let endTime := o.endTime / 100 * duration
  let trimDuration := endTime - startTime
  let inputFileName := if videoName.endsWith ".webm" then "input.webm" else "input.mp4"
  baseArgs inputFileName startTime trimDuration ++
  volArgs o.volume ++
  speedArgs o.speed ++
  fadeArgs o.fadeIn o.fadeOut trimDuration ++
  [.s "output.mp4"]

end EnhancedVideoEditor

/-- Extracts the start offset of the fade-out directive from a fade
filter chain, if one is present. -/
def fadeOutStartOfChain (fs : List FadeSpec) : Option ℚ :=
  match fs.find? (fun f => f.dir == FadeDir.tout) with
  | some f => some f.st
  | none => none

/-- Extracts the start offset of the first fade-out directive in an
ffmpeg argument list, if any. -/
def fadeOutStart : List Tok → Option ℚ
  | [] => none
  | Tok.fadeChain fs :: rest =>
      match fadeOutStartOfChain fs with
      | some q => some q
      | none => fadeOutStart rest
  | _ :: rest => fadeOutStart rest

/-- Extracts the factor of the first volume filter in an ffmpeg argument
list, if any. -/
def volumeFactor : List Tok → Option ℚ
  | [] => none
  | Tok.volumeFilter f :: _ => some f
  | _ :: rest => volumeFactor rest

/-- True when the argument list contains a setpts video filter. -/
def hasSetpts (l : List Tok) : Bool :=
  l.any fun t => match t with
    | Tok.setptsFilter _ => true
    | _ => false

/-- True when the argument list contains an atempo audio filter. -/
def hasAtempo (l : List Tok) : Bool :=
  l.any fun t => match t with
    | Tok.atempoFilter _ => true
    | _ => false

/-- An audio filter passed to fluent-ffmpeg audioFilters in
src/lib/ffmpeg.ts. -/
inductive AFilter where
  | volume (factor : ℚ)
  | atempo (factor : ℚ)
deriving DecidableEq, Repr

/-- A video filter passed to fluent-ffmpeg videoFilters in
src/lib/ffmpeg.ts. -/
inductive VFilter where
  | fade (fs : List FadeSpec)
  | setpts (invSpeed : ℚ)
deriving DecidableEq, Repr

/-- One builder call on the fluent-ffmpeg command object, in the order
the calls are chained in src/lib/ffmpeg.ts. -/
inductive BOp where
  | seekInput (t : ℚ)
  | durationOpt (d : ℚ)
  | audioFilter (f : AFilter)
  | videoFilter (f : VFilter)
  | videoCodec (c : String)
  | opt (x : String)
  | output
deriving DecidableEq, Repr

namespace FFmpegLib

/-- The crf value of the quality settings table
(src/lib/ffmpeg.ts lines 267-271). -/
def crf : Quality → Nat
  | .low => 28
  | .medium => 23
  | .high => 18

/-- The encoder preset of the quality settings table
(src/lib/ffmpeg.ts lines 267-271). -/
def presetOf : Quality → String
  | .low => "fast"
  | .medium => "medium"
  | .high => "slow"

/-- The sequence of fluent-ffmpeg builder calls made by
FFmpegVideoEditor.processVideo (src/lib/ffmpeg.ts lines 223-287).
Here startTime and endTime are in seconds. -/
def processVideo (o : VideoEditOptions) : List BOp :=
  (if 0 < o.startTime ∨ 0 < o.endTime then
    [.seekInput o.startTime] ++
    (if o.startTime < o.endTime then [.durationOpt (o.endTime - o.startTime)] else [])
   else []) ++
  (if o.volume ≠ 100 then [.audioFilter (.volume (o.volume / 100))] else []) ++
  (let filters : List FadeSpec :=
    (if 0 < o.fadeIn then [⟨.tin, 0, o.fadeIn⟩] else []) ++
    (if 0 < o.fadeOut then [⟨.tout, 0, o.fadeOut⟩] else [])
   if filters ≠ [] then [.videoFilter (.fade filters)] else []) ++
  (if o.speed ≠ 1 then
    [.videoFilter (.setpts (1 / o.speed)), .audioFilter (.atempo o.speed)]
   else []) ++
  [.videoCodec "libx264",
   .opt ("-crf " ++ toString (crf o.quality)),
   .opt ("-preset " ++ presetOf o.quality),
   .opt "-movflags +faststart",
   .output]

end FFmpegLib

/-- True when the builder-call list contains a setpts video filter. -/
def bopHasSetpts (l : List BOp) : Bool :=
  l.any fun b => match b with
    | BOp.videoFilter (VFilter.setpts _) => true
    | _ => false

/-- True when the builder-call list contains an atempo audio filter. -/
def bopHasAtempo (l : List BOp) : Bool :=
  l.any fun b => match b with
    | BOp.audioFilter (AFilter.atempo _) => true
    | _ => false

/-- Extracts the factor of the first volume audio filter among the
builder calls, if any. -/
def bopVolumeFactor : List BOp → Option ℚ
  | [] => none
  | BOp.audioFilter (AFilter.volume f) :: _ => some f
  | _ :: rest => bopVolumeFactor rest

/-- A JavaScript number restricted to the fragment the Timeline
conversions exercise: an exact rational, the two infinities, or NaN.
Negative zero and rounding are not modelled; they play no role in the
guard behaviour under study. -/
inductive JSNum where
  | num (q : ℚ)
  | posInf
  | negInf
  | nan
deriving DecidableEq, Repr

namespace JSNum

/-- IEEE-style division on the JSNum fragment: finite/0 gives a signed
infinity (NaN for 0/0), finite/infinite gives 0, infinite/finite gives a
signed infinity, and every remaining case (NaN operands, inf/inf) gives
NaN. -/
def div : JSNum → JSNum → JSNum
  | num a, num b =>
      if b = 0 then (if a = 0 then nan else if 0 < a then posInf else negInf)
      else num (a / b)
  | num _, posInf => num 0
  | num _, negInf => num 0
  | posInf, num b => if 0 ≤ b then posInf else negInf
  | negInf, num b => if 0 ≤ b then negInf else posInf
  | _, _ => nan

/-- IEEE-style multiplication on the JSNum fragment: infinity times zero
gives NaN, infinity times a nonzero finite or infinite value gives a
signed infinity, and NaN propagates. -/
def mul : JSNum → JSNum → JSNum
  | num a, num b => num (a * b)
  | num a, posInf => if a = 0 then nan else if 0 < a then posInf else negInf
  | posInf, num b => if b = 0 then nan else if 0 < b then posInf else negInf
  | num a, negInf => if a = 0 then nan else if 0 < a then negInf else posInf
  | negInf, num b => if b = 0 then nan else if 0 < b then negInf else posInf
  | posInf, posInf => posInf
  | posInf, negInf => negInf
  | negInf, posInf => negInf
  | negInf, negInf => posInf
  | _, _ => nan

end JSNum

namespace Timeline

/-- getPositionFromTime (Timeline.tsx lines 36-38):
(time / duration) * 100, with no guard on duration. -/
def getPositionFromTime (time duration : JSNum) : JSNum :=
  JSNum.mul (JSNum.div time duration) (JSNum.num 100)

/-- getTimeFromPosition (Timeline.tsx lines 40-42):
(position / 100) * duration, with no guard on duration. -/
def getTimeFromPosition (position duration : JSNum) : JSNum :=
  JSNum.mul (JSNum.div position (JSNum.num 100)) duration

/-- Which element a drag session is moving: the start handle, the end
handle, or the current-time (playhead) marker. -/
inductive DragTarget where
  | startH
  | endH
  | currentH
deriving DecidableEq, Repr

/-- The state update requested by one pointer-move while dragging. -/
inductive DragResult where
  | setStart (t : ℚ)
  | setEnd (t : ℚ)
  | seek (t : ℚ)
deriving DecidableEq, Repr

/-- Start-handle pointer-move clamp (Timeline.tsx line 64):
newTime = Math.max(0, Math.min(time, endTime - 0.1)). -/
def startDragTime (time endTime : ℚ) : ℚ :=
  max 0 (min time (endTime - 1/10))

/-- End-handle pointer-move clamp (Timeline.tsx line 72):
newTime = Math.max(startTime + 0.1, Math.min(time, duration)). -/
def endDragTime (time startTime duration : ℚ) : ℚ :=
  max (startTime + 1/10) (min time duration)

/-- Playhead pointer-move clamp (Timeline.tsx line 78):
newTime = Math.max(startTime, Math.min(time, endTime)). -/
def currentDragTime (time startTime endTime : ℚ) : ℚ :=
  max startTime (min time endTime)

/-- Dispatch of handleDocumentMouseMove (Timeline.tsx lines 52-81) on
the active drag target, given the candidate time derived from the
pointer position and the current startTime/endTime/duration props. -/
def handleDocumentMouseMove (isDragging : DragTarget)
    (time startTime endTime duration : ℚ) : DragResult :=
  match isDragging with
  | .startH => .setStart (startDragTime time endTime)
  | .endH => .setEnd (endDragTime time startTime duration)
  | .currentH => .seek (currentDragTime time startTime endTime)

end Timeline

namespace EnhancedVideoEditor

/-- The percent trim range held in the editOptions of the editor:
startTime and endTime as percentages of the duration. -/
structure TrimState where
  startTime : ℚ
  endTime : ℚ
deriving DecidableEq, Repr

/-- handleStartTimeChange (EnhancedVideoEditor.tsx lines 160-173):
converts the incoming seconds value to a percentage and clamps it to
[0, endTime - 1] before storing it as the new startTime percent. -/
def handleStartTimeChange (time duration : ℚ) (s : TrimState) : TrimState :=
  let percentage := time / duration * 100
  let constrainedPercentage := max 0 (min percentage (s.endTime - 1))
  { s with startTime := constrainedPercentage }

/-- handleEndTimeChange (EnhancedVideoEditor.tsx lines 175-188):
converts the incoming seconds value to a percentage and clamps it to
[startTime + 1, 100] before storing it as the new endTime percent. -/
def handleEndTimeChange (time duration : ℚ) (s : TrimState) : TrimState :=
  let percentage := time / duration * 100
  let constrainedPercentage := max (s.startTime + 1) (min percentage 100)
  { s with endTime := constrainedPercentage }

/-- The initial trim range of a freshly loaded video:
startTime 0 percent, endTime 100 percent
(EnhancedVideoEditor.tsx lines 38-46). -/
def initTrim : TrimState := ⟨0, 100⟩

/-- Trim states reachable in the editor: the initial full range,
followed by any number of start/end handle updates (with a positive
duration, the only situation in which the percent conversion is
meaningful). -/
inductive ReachableTrim : TrimState → Prop where
  | init : ReachableTrim initTrim
  | stepStart (s : TrimState) (time duration : ℚ) (hd : 0 < duration)
      (h : ReachableTrim s) : ReachableTrim (handleStartTimeChange time duration s)
  | stepEnd (s : TrimState) (time duration : ℚ) (hd : 0 < duration)
      (h : ReachableTrim s) : ReachableTrim (handleEndTimeChange time duration s)

/-- handleSeek (EnhancedVideoEditor.tsx lines 148-158): the requested
seek time clamped into the trim range,
Math.max(startTime, Math.min(time, endTime)) with startTime/endTime the
absolute seconds derived from the percent trim range. -/
def handleSeek (time : ℚ) (s : TrimState) (duration : ℚ) : ℚ :=
  let startTime := s.startTime / 100 * duration
  let endTime := s.endTime / 100 * duration
  max startTime (min time endTime)

/-- The playhead clamp of handleTimeUpdate (EnhancedVideoEditor.tsx
lines 118-135): the reported currentTime constrained into the trim
range by the same max/min expression as handleSeek. -/
def handleTimeUpdate (currentVideoTime : ℚ) (s : TrimState) (duration : ℚ) : ℚ :=
  let startTime := s.startTime / 100 * duration
  let endTime := s.endTime / 100 * duration
  max startTime (min currentVideoTime endTime)

end EnhancedVideoEditor

/-- Math.round on a rational: floor(q + 1/2), the JavaScript
round-half-up rule. -/
def jsRound (q : ℚ) : ℤ := ⌊q + 1/2⌋

/-- An event observed by the progress tracking of one processing run:
either an engine-reported progress fraction (the ffmpeg.on progress
callback) or one firing of the fallback setInterval timer with its
Math.random() * 5 increment. -/
inductive ProgressEv where
  | engine (p : ℚ)
  | tick (r : ℚ)
deriving DecidableEq, Repr

/-- One progress event applied to the mutable currentProgress variable
(EnhancedVideoEditor.tsx lines 289-313): returns the new
currentProgress and the progress values emitted to the UI state.
An engine report raises currentProgress to
max(currentProgress, Math.round(progress * 100)) and emits
Math.round(currentProgress); a fallback tick, only when
currentProgress < 85, adds its increment and emits
Math.min(Math.round(currentProgress), 85). -/
def progressStep (cp : ℚ) : ProgressEv → ℚ × List ℤ
  | .engine p =>
      let progressPercent := jsRound (p * 100)
      let cp2 := max cp (progressPercent : ℚ)
      (cp2, [jsRound cp2])
  | .tick r =>
      if cp < 85 then
        (cp + r, [min (jsRound (cp + r)) 85])
      else (cp, [])

/-- The progress values emitted over a sequence of events, starting
from the given currentProgress. -/
def progressEmits (cp : ℚ) : List ProgressEv → List ℤ
  | [] => []
  | e :: es =>
      let res := progressStep cp e
      res.2 ++ progressEmits res.1 es

/-- Every fallback tick in the event list carries a nonnegative
increment, as Math.random() * 5 always does. -/
def ticksNonneg : List ProgressEv → Prop
  | [] => True
  | ProgressEv.tick r :: es => 0 ≤ r ∧ ticksNonneg es
  | _ :: es => ticksNonneg es

namespace EnhancedVideoEditor

/-- The processing state displayed by the editor
(EnhancedVideoEditor.tsx lines 15-19). -/
structure ProcessingState where
  isProcessing : Bool
  progress : ℤ
  stage : String
deriving DecidableEq, Repr

/-- The state written by the catch block of trimVideo
(EnhancedVideoEditor.tsx lines 355-359). -/
def errorState : ProcessingState := ⟨false, 0, "Error occurred"⟩

/-- The awaited step of trimVideo at which the engine can throw. -/
inductive FailPoint where
  | writeFile
  | exec
  | readFile
  | deleteInput
  | deleteOutput
deriving DecidableEq, Repr

/-- The processing state set for one emitted progress value while the
run is in flight (EnhancedVideoEditor.tsx lines 295-299 and 307-311):
the functional update spreads prev, whose isProcessing is true. -/
def runningState (z : ℤ) : ProcessingState :=
  ⟨true, z, "Processing video... " ++ toString z ++ "%"⟩

/-- The processing state set by a fallback tick that fires after the
catch block has run (same lines 307-311): the functional update spreads
prev, whose isProcessing the catch has set to false. -/
def postState (z : ℤ) : ProcessingState :=
  ⟨false, z, "Processing video... " ++ toString z ++ "%"⟩

/-- The value of the mutable currentProgress variable after a sequence
of progress events. -/
def progressFinalCp (cp : ℚ) : List ProgressEv → ℚ
  | [] => cp
  | e :: es => progressFinalCp (progressStep cp e).1 es

/-- The successive ProcessingState values written by one invocation of
trimVideo (EnhancedVideoEditor.tsx lines 224-361), given the progress
events observed while the engine executes, the increments of the
fallback ticks that fire after control has left trimVideo, and the
step, if any, at which the engine throws.  A throw at any awaited step
transfers control to the catch block, which writes its reset state.
clearInterval is only reached inside the try block (lines 323-325),
after exec: when exec itself throws, the catch does not clear the
fallback interval, so the ticks in postTicks keep firing afterwards
and keep writing states (with isProcessing spread from the catch
state, hence false) as long as currentProgress is below 85; on every
other failure path the interval is either not yet started (writeFile)
or already cleared (readFile and the deletes), so no state follows the
catch state. -/
def trimVideoStates (events : List ProgressEv) (postTicks : List ℚ)
    (fail : Option FailPoint) : List ProcessingState :=
  [⟨true, 0, "Initializing..."⟩, ⟨true, 10, "Loading video..."⟩] ++
  match fail with
  | some .writeFile => [errorState]
  | _ =>
    [⟨true, 15, "Video loaded, starting processing..."⟩,
     ⟨true, 20, "Processing video..."⟩] ++
    (progressEmits 20 events).map runningState ++
    match fail with
    | some .exec =>
        errorState ::
          (progressEmits (progressFinalCp 20 events)
            (postTicks.map ProgressEv.tick)).map postState
    | _ =>
      [⟨true, 90, "Finalizing..."⟩] ++
      match fail with
      | some .readFile => [errorState]
      | some .deleteInput => [errorState]
      | some .deleteOutput => [errorState]
      | _ => [⟨true, 100, "Complete!"⟩, ⟨false, 0, ""⟩]

/-- The isProcessing flag of the last state written, false when no
state was written at all. -/
def finalIsProcessing (l : List ProcessingState) : Bool :=
  match l.getLast? with
  | some st => st.isProcessing
  | none => false

end EnhancedVideoEditor

-- Concrete option records used by the theorems below.

/-- The initial edit options of the editor
(EnhancedVideoEditor.tsx lines 38-46). -/
def defaultOptions : VideoEditOptions :=
  ⟨0, 100, 100, 0, 0, 1, Quality.medium⟩

/-- Options selecting half speed and leaving everything else at its
default. -/
def speedHalfOptions : VideoEditOptions :=
  ⟨0, 100, 100, 0, 0, 1/2, Quality.medium⟩

/-- Options trimming to the first half of the media with a 10 second
fade-out: on a 10 second video the trimmed duration is 5 seconds, which
the fade-out length exceeds. -/
def fadeOverflowOptions : VideoEditOptions :=
  ⟨0, 50, 100, 0, 10, 1, Quality.medium⟩

/-- The worked fade example of the spec: trim 25 to 75 percent with a
5 second fade-out (on a 120 second video this is 30s to 90s). -/
def fadeExampleOptions : VideoEditOptions :=
  ⟨25, 75, 100, 0, 5, 1, Quality.medium⟩

/-- The beq test used by the fade-out extractor, evaluated on the two
direction constructors. -/
@[simp] theorem fadeDir_beq_tin_tout : (FadeDir.tin == FadeDir.tout) = false := rfl

/-- The beq test used by the fade-out extractor on the out direction. -/
@[simp] theorem fadeDir_beq_tout_tout : (FadeDir.tout == FadeDir.tout) = true := rfl

/-- C1 counterexample: with fadeOutSec greater than the trimmed
duration (fadeOut 10, trimmed duration 5 on a 10 second video), the
translator emits the fade-out start offset as the negative value -5; it
is not clamped to 0 as the claim states. -/
theorem fadeOut_clamp_counterexample :
    fadeOutStart (EnhancedVideoEditor.buildArgs fadeOverflowOptions 10 "v.mp4") =
      some (-5) ∧
    (-5 : ℚ) ≠ 0 ∧
    (fadeOverflowOptions.endTime / 100 * 10 - fadeOverflowOptions.startTime / 100 * 10)
      < fadeOverflowOptions.fadeOut := by
  refine ⟨?_, by norm_num, by norm_num [fadeOverflowOptions]⟩
  norm_num [fadeOverflowOptions, EnhancedVideoEditor.buildArgs,
    EnhancedVideoEditor.baseArgs, EnhancedVideoEditor.volArgs,
    EnhancedVideoEditor.speedArgs, EnhancedVideoEditor.fadeArgs,
    EnhancedVideoEditor.fadeFilterList, fadeOutStart, fadeOutStartOfChain,
    List.find?]

/-- C1 (amended): for every EditOptions with fadeOutSec > 0 and every
resolved duration, the translator emits a fade-out operation whose
start offset equals trimmedDuration - fadeOutSec on the trimmed
timeline, with no clamping: when fadeOutSec exceeds the trimmed
duration the emitted offset is negative. -/
theorem fadeOut_offset_amended (o : VideoEditOptions) (d : ℚ) (nm : String)
    (h : 0 < o.fadeOut) :
    fadeOutStart (EnhancedVideoEditor.buildArgs o d nm) =
      some ((o.endTime / 100 * d - o.startTime / 100 * d) - o.fadeOut) := by
  unfold EnhancedVideoEditor.buildArgs EnhancedVideoEditor.baseArgs
    EnhancedVideoEditor.volArgs EnhancedVideoEditor.speedArgs
    EnhancedVideoEditor.fadeArgs EnhancedVideoEditor.fadeFilterList
  split_ifs <;>
    simp_all [fadeOutStart, fadeOutStartOfChain, List.find?]

/-- Witness for C1 (amended) at the worked example of the spec: duration
120, trim 25 to 75 percent, fadeOut 5, giving offset 55 on the trimmed
timeline. -/
theorem fadeOut_offset_amended_witness :
    fadeOutStart (EnhancedVideoEditor.buildArgs fadeExampleOptions 120 "v.mp4") =
      some 55 := by
  rw [fadeOut_offset_amended fadeExampleOptions 120 "v.mp4" (by norm_num [fadeExampleOptions])]
  norm_num [fadeExampleOptions]

/-- C2 (code bug evaluation): at speed 0.5 the browser translator emits
the video timestamp rescale setpts=2*PTS but no atempo audio filter at
all, so the two rescalings are not emitted together; the server-side
library processVideo, by contrast, emits the setpts filter exactly when
it emits the atempo filter, for every input. -/
theorem speed_rescale_unpaired :
    Tok.setptsFilter 2 ∈ EnhancedVideoEditor.buildArgs speedHalfOptions 100 "v.mp4" ∧
    hasAtempo (EnhancedVideoEditor.buildArgs speedHalfOptions 100 "v.mp4") = false ∧
    ∀ o : VideoEditOptions,
      bopHasSetpts (FFmpegLib.processVideo o) = bopHasAtempo (FFmpegLib.processVideo o) := by
  refine ⟨?_, ?_, fun o => ?_⟩
  · norm_num [speedHalfOptions, EnhancedVideoEditor.buildArgs,
      EnhancedVideoEditor.baseArgs, EnhancedVideoEditor.volArgs,
      EnhancedVideoEditor.speedArgs, EnhancedVideoEditor.fadeArgs,
      EnhancedVideoEditor.fadeFilterList]
  · norm_num [speedHalfOptions, EnhancedVideoEditor.buildArgs,
      EnhancedVideoEditor.baseArgs, EnhancedVideoEditor.volArgs,
      EnhancedVideoEditor.speedArgs, EnhancedVideoEditor.fadeArgs,
      EnhancedVideoEditor.fadeFilterList, hasAtempo]
  · unfold FFmpegLib.processVideo
    split_ifs <;> simp [bopHasSetpts, bopHasAtempo]

/-- C6: the translator is deterministic: two invocations of the
argument-list builder with identical edit options, identical duration
and identical video name produce identical argument lists; the builder
is a pure function of these inputs with no randomness or clock
dependence. -/
theorem buildArgs_deterministic (o₁ o₂ : VideoEditOptions) (d₁ d₂ : ℚ)
    (n₁ n₂ : String) (ho : o₁ = o₂) (hd : d₁ = d₂) (hn : n₁ = n₂) :
    EnhancedVideoEditor.buildArgs o₁ d₁ n₁ = EnhancedVideoEditor.buildArgs o₂ d₂ n₂ := by
  subst ho hd hn
  rfl

/-- Witness for C6 at the default options on a 120 second video. -/
theorem buildArgs_deterministic_witness :
    EnhancedVideoEditor.buildArgs defaultOptions 120 "v.mp4" =
      EnhancedVideoEditor.buildArgs defaultOptions 120 "v.mp4" :=
  buildArgs_deterministic defaultOptions defaultOptions 120 120 "v.mp4" "v.mp4"
    rfl rfl rfl

/-- C9: in both the browser translator and the server-side library, a
volume filter is emitted if and only if volumePct differs from 100, and
when emitted its factor is volumePct/100. -/
theorem volume_scale_iff (o : VideoEditOptions) (d : ℚ) (nm : String) :
    volumeFactor (EnhancedVideoEditor.buildArgs o d nm) =
      (if o.volume = 100 then none else some (o.volume / 100)) ∧
    bopVolumeFactor (FFmpegLib.processVideo o) =
      (if o.volume = 100 then none else some (o.volume / 100)) := by
  constructor
  · unfold EnhancedVideoEditor.buildArgs EnhancedVideoEditor.baseArgs
      EnhancedVideoEditor.volArgs EnhancedVideoEditor.speedArgs
      EnhancedVideoEditor.fadeArgs EnhancedVideoEditor.fadeFilterList
    split_ifs <;> simp_all [volumeFactor]
  · unfold FFmpegLib.processVideo
    split_ifs <;> simp_all [bopVolumeFactor]

/-- C4 counterexample: when the End handle sits below the
0.1 second minimum (endTime 0.05, as happens with media shorter than
0.1 seconds where no drag is prevented), a Start-handle drag produces
startTime 0, which is outside the claimed interval
[0, endSec - minSelectableSec] and violates
startSec + minSelectableSec ≤ endSec. -/
theorem minSelection_guard_counterexample :
    Timeline.startDragTime (1/5) (1/20) = 0 ∧
    ¬ Timeline.startDragTime (1/5) (1/20) ≤ 1/20 - 1/10 ∧
    ¬ Timeline.startDragTime (1/5) (1/20) + 1/10 ≤ 1/20 := by
  norm_num [Timeline.startDragTime]

/-- C4 (amended): provided the pre-drag state can accommodate the
minimum selection (minSelectableSec = 0.1 ≤ endSec while dragging
Start, and startSec + 0.1 ≤ duration while dragging End), every
candidate time is clamped into [0, endSec - 0.1] respectively
[startSec + 0.1, duration], and after the update the selection
satisfies startSec + 0.1 ≤ endSec; without that proviso (media shorter
than 0.1 s) the lower clamp bound dominates and the guard fails. -/
theorem drag_clamp_amended (t s e d : ℚ) (he : 1/10 ≤ e) (hsd : s + 1/10 ≤ d) :
    (0 ≤ Timeline.startDragTime t e ∧
     Timeline.startDragTime t e ≤ e - 1/10 ∧
     Timeline.startDragTime t e + 1/10 ≤ e) ∧
    (s + 1/10 ≤ Timeline.endDragTime t s d ∧
     Timeline.endDragTime t s d ≤ d) := by
  unfold Timeline.startDragTime Timeline.endDragTime
  have h1 : max 0 (min t (e - 1/10)) ≤ e - 1/10 :=
    max_le (by linarith) (min_le_right _ _)
  exact ⟨⟨le_max_left _ _, h1, by linarith⟩,
    ⟨le_max_left _ _, max_le hsd (min_le_right _ _)⟩⟩

/-- Witness for C4 (amended): a Start drag to 50 s and an End drag to
50 s on a 100 second video whose selection is currently 10 s to 60 s. -/
theorem drag_clamp_amended_witness :
    (0 ≤ Timeline.startDragTime 50 60 ∧
     Timeline.startDragTime 50 60 ≤ 60 - 1/10 ∧
     Timeline.startDragTime 50 60 + 1/10 ≤ 60) ∧
    (10 + 1/10 ≤ Timeline.endDragTime 50 10 100 ∧
     Timeline.endDragTime 50 10 100 ≤ 100) :=
  drag_clamp_amended 50 10 60 100 (by norm_num) (by norm_num)

/-- C5: once a trim range exists (startSec ≤ endSec, equivalently
startPct ≤ endPct with a nonnegative duration), every playhead
mutation lands inside the range: the Timeline playhead drag clamp, the
click/drag seek handler of the editor, and the playback time-update
constraint all produce a value between startSec and endSec. -/
theorem playhead_clamp_invariant (t a b d : ℚ) (s : EnhancedVideoEditor.TrimState)
    (hab : a ≤ b) (hse : s.startTime ≤ s.endTime) (hd : 0 ≤ d) :
    (a ≤ Timeline.currentDragTime t a b ∧ Timeline.currentDragTime t a b ≤ b) ∧
    (s.startTime / 100 * d ≤ EnhancedVideoEditor.handleSeek t s d ∧
     EnhancedVideoEditor.handleSeek t s d ≤ s.endTime / 100 * d) ∧
    (s.startTime / 100 * d ≤ EnhancedVideoEditor.handleTimeUpdate t s d ∧
     EnhancedVideoEditor.handleTimeUpdate t s d ≤ s.endTime / 100 * d) := by
  have hsec : s.startTime / 100 * d ≤ s.endTime / 100 * d := by
    apply mul_le_mul_of_nonneg_right _ hd
    linarith
  unfold Timeline.currentDragTime EnhancedVideoEditor.handleSeek
    EnhancedVideoEditor.handleTimeUpdate
  exact ⟨⟨le_max_left _ _, max_le hab (min_le_right _ _)⟩,
    ⟨le_max_left _ _, max_le hsec (min_le_right _ _)⟩,
    ⟨le_max_left _ _, max_le hsec (min_le_right _ _)⟩⟩

/-- Witness for C5: seeking to 70 s with a selection of 25 to 75
percent of a 120 second video (30 s to 90 s). -/
theorem playhead_clamp_invariant_witness :
    ((30 : ℚ) ≤ Timeline.currentDragTime 70 30 90 ∧
     Timeline.currentDragTime 70 30 90 ≤ 90) ∧
    ((25 : ℚ) / 100 * 120 ≤ EnhancedVideoEditor.handleSeek 70 ⟨25, 75⟩ 120 ∧
     EnhancedVideoEditor.handleSeek 70 ⟨25, 75⟩ 120 ≤ (75 : ℚ) / 100 * 120) ∧
    ((25 : ℚ) / 100 * 120 ≤ EnhancedVideoEditor.handleTimeUpdate 70 ⟨25, 75⟩ 120 ∧
     EnhancedVideoEditor.handleTimeUpdate 70 ⟨25, 75⟩ 120 ≤ (75 : ℚ) / 100 * 120) :=
  playhead_clamp_invariant 70 30 90 120 ⟨25, 75⟩ (by norm_num) (by norm_num) (by norm_num)

/-- C8 counterexample: with duration 0 the Timeline conversion
getPositionFromTime(30, 0) evaluates to Infinity, not to the fallback
value 0 the claim states. -/
theorem conversion_guard_counterexample :
    Timeline.getPositionFromTime (JSNum.num 30) (JSNum.num 0) = JSNum.posInf ∧
    JSNum.posInf ≠ JSNum.num 0 := by
  constructor
  · norm_num [Timeline.getPositionFromTime, JSNum.div, JSNum.mul]
  · exact fun h => JSNum.noConfusion h

/-- C8 (amended): the conversions carry no guard for duration 0.
getPositionFromTime yields Infinity for every positive time and NaN at
time 0 when duration is 0; getTimeFromPosition happens to return 0 at
duration 0, but only because multiplying the finite intermediate by the
zero duration gives 0, not because of any fallback. -/
theorem conversion_guard_amended (t p : ℚ) (ht : 0 < t) :
    Timeline.getPositionFromTime (JSNum.num t) (JSNum.num 0) = JSNum.posInf ∧
    Timeline.getPositionFromTime (JSNum.num 0) (JSNum.num 0) = JSNum.nan ∧
    Timeline.getTimeFromPosition (JSNum.num p) (JSNum.num 0) = JSNum.num 0 := by
  refine ⟨?_, by norm_num [Timeline.getPositionFromTime, JSNum.div, JSNum.mul], ?_⟩
  · simp [Timeline.getPositionFromTime, JSNum.div, JSNum.mul, ht, ht.ne']
  · norm_num [Timeline.getTimeFromPosition, JSNum.div, JSNum.mul]

/-- Witness for C8 (amended) at time 30 and position 55. -/
theorem conversion_guard_amended_witness :
    Timeline.getPositionFromTime (JSNum.num 30) (JSNum.num 0) = JSNum.posInf ∧
    Timeline.getPositionFromTime (JSNum.num 0) (JSNum.num 0) = JSNum.nan ∧
    Timeline.getTimeFromPosition (JSNum.num 55) (JSNum.num 0) = JSNum.num 0 :=
  conversion_guard_amended 30 55 (by norm_num)

/-- The percent-range invariant of the trim state of the editor: start at
least 0, a gap of at least one percentage point, end at most 100. -/
def TrimInv (s : EnhancedVideoEditor.TrimState) : Prop :=
  0 ≤ s.startTime ∧ s.startTime + 1 ≤ s.endTime ∧ s.endTime ≤ 100

/-- Every editor-reachable trim state satisfies the percent-range
invariant. -/
theorem reachableTrim_inv (s : EnhancedVideoEditor.TrimState)
    (h : EnhancedVideoEditor.ReachableTrim s) : TrimInv s := by
  induction h with
  | init => exact ⟨by norm_num [EnhancedVideoEditor.initTrim],
      by norm_num [EnhancedVideoEditor.initTrim],
      by norm_num [EnhancedVideoEditor.initTrim]⟩
  | stepStart s time duration hd _ ih =>
      obtain ⟨h0, h1, h2⟩ := ih
      unfold EnhancedVideoEditor.handleStartTimeChange
      refine ⟨le_max_left _ _, ?_, h2⟩
      have : max 0 (min (time / duration * 100) (s.endTime - 1)) ≤ s.endTime - 1 :=
        max_le (by linarith) (min_le_right _ _)
      simpa using by linarith
  | stepEnd s time duration hd _ ih =>
      obtain ⟨h0, h1, h2⟩ := ih
      unfold EnhancedVideoEditor.handleEndTimeChange
      refine ⟨h0, le_max_left _ _, ?_⟩
      exact max_le (by linarith) (min_le_right _ _)

/-- C10: from any editor-reachable trim state, a start-time change
clamps the new startPct into [0, endPct - 1] and an end-time change
clamps the new endPct into [startPct + 1, 100], so after either update
the selection keeps a gap of at least one percentage point; in seconds
that gap is at least duration/100, which exceeds the fixed Timeline
0.1 second drag guard whenever the media is longer than 10 seconds. -/
theorem trim_gap_invariant (s : EnhancedVideoEditor.TrimState) (t d : ℚ)
    (hs : EnhancedVideoEditor.ReachableTrim s) (hd : 0 < d) :
    (0 ≤ (EnhancedVideoEditor.handleStartTimeChange t d s).startTime ∧
     (EnhancedVideoEditor.handleStartTimeChange t d s).startTime ≤ s.endTime - 1 ∧
     1 ≤ (EnhancedVideoEditor.handleStartTimeChange t d s).endTime -
       (EnhancedVideoEditor.handleStartTimeChange t d s).startTime) ∧
    (s.startTime + 1 ≤ (EnhancedVideoEditor.handleEndTimeChange t d s).endTime ∧
     (EnhancedVideoEditor.handleEndTimeChange t d s).endTime ≤ 100 ∧
     1 ≤ (EnhancedVideoEditor.handleEndTimeChange t d s).endTime -
       (EnhancedVideoEditor.handleEndTimeChange t d s).startTime) ∧
    (10 < d →
     1/10 < ((EnhancedVideoEditor.handleStartTimeChange t d s).endTime -
       (EnhancedVideoEditor.handleStartTimeChange t d s).startTime) / 100 * d ∧
     1/10 < ((EnhancedVideoEditor.handleEndTimeChange t d s).endTime -
       (EnhancedVideoEditor.handleEndTimeChange t d s).startTime) / 100 * d) := by
  obtain ⟨h0, h1, h2⟩ := reachableTrim_inv s hs
  unfold EnhancedVideoEditor.handleStartTimeChange EnhancedVideoEditor.handleEndTimeChange
  simp only
  have hstart : max 0 (min (t / d * 100) (s.endTime - 1)) ≤ s.endTime - 1 :=
    max_le (by linarith) (min_le_right _ _)
  have hend : s.startTime + 1 ≤ max (s.startTime + 1) (min (t / d * 100) 100) :=
    le_max_left _ _
  have hend100 : max (s.startTime + 1) (min (t / d * 100) 100) ≤ 100 :=
    max_le (by linarith) (min_le_right _ _)
  refine ⟨⟨le_max_left _ _, hstart, by linarith⟩, ⟨hend, hend100, by linarith⟩, ?_⟩
  intro h10
  have gapStart : (1 : ℚ) ≤ s.endTime - max 0 (min (t / d * 100) (s.endTime - 1)) := by
    linarith
  have gapEnd : (1 : ℚ) ≤ max (s.startTime + 1) (min (t / d * 100) 100) - s.startTime := by
    linarith
  constructor
  · have : (1 : ℚ) / 100 * d ≤
        (s.endTime - max 0 (min (t / d * 100) (s.endTime - 1))) / 100 * d := by
      apply mul_le_mul_of_nonneg_right _ (le_of_lt hd)
      linarith
    linarith
  · have : (1 : ℚ) / 100 * d ≤
        (max (s.startTime + 1) (min (t / d * 100) 100) - s.startTime) / 100 * d := by
      apply mul_le_mul_of_nonneg_right _ (le_of_lt hd)
      linarith
    linarith

/-- Witness for C10 at the initial full-range state with a drag to 30 s
on a 60 second video. -/
theorem trim_gap_invariant_witness :
    (0 ≤ (EnhancedVideoEditor.handleStartTimeChange 30 60 EnhancedVideoEditor.initTrim).startTime ∧
     (EnhancedVideoEditor.handleStartTimeChange 30 60 EnhancedVideoEditor.initTrim).startTime ≤
       EnhancedVideoEditor.initTrim.endTime - 1 ∧
     1 ≤ (EnhancedVideoEditor.handleStartTimeChange 30 60 EnhancedVideoEditor.initTrim).endTime -
       (EnhancedVideoEditor.handleStartTimeChange 30 60 EnhancedVideoEditor.initTrim).startTime) ∧
    (EnhancedVideoEditor.initTrim.startTime + 1 ≤
       (EnhancedVideoEditor.handleEndTimeChange 30 60 EnhancedVideoEditor.initTrim).endTime ∧
     (EnhancedVideoEditor.handleEndTimeChange 30 60 EnhancedVideoEditor.initTrim).endTime ≤ 100 ∧
     1 ≤ (EnhancedVideoEditor.handleEndTimeChange 30 60 EnhancedVideoEditor.initTrim).endTime -
       (EnhancedVideoEditor.handleEndTimeChange 30 60 EnhancedVideoEditor.initTrim).startTime) ∧
    (10 < (60 : ℚ) →
     1/10 < ((EnhancedVideoEditor.handleStartTimeChange 30 60 EnhancedVideoEditor.initTrim).endTime -
       (EnhancedVideoEditor.handleStartTimeChange 30 60 EnhancedVideoEditor.initTrim).startTime) / 100 * 60 ∧
     1/10 < ((EnhancedVideoEditor.handleEndTimeChange 30 60 EnhancedVideoEditor.initTrim).endTime -
       (EnhancedVideoEditor.handleEndTimeChange 30 60 EnhancedVideoEditor.initTrim).startTime) / 100 * 60) :=
  trim_gap_invariant EnhancedVideoEditor.initTrim 30 60
    EnhancedVideoEditor.ReachableTrim.init (by norm_num)

/-- Math.round is monotone. -/
theorem jsRound_mono {a b : ℚ} (h : a ≤ b) : jsRound a ≤ jsRound b :=
  Int.floor_le_floor (by linarith)

/-- Math.round of a value strictly below 85 is at most 85. -/
theorem jsRound_le_85 {q : ℚ} (h : q < 85) : jsRound q ≤ 85 := by
  have h86 : jsRound q < 86 := by
    rw [jsRound, Int.floor_lt]
    push_cast
    linarith
  omega

/-- The emitted progress values are non-decreasing from any starting
currentProgress, relative to any already-emitted lower bound that is at
most the rounding of the current value. -/
theorem progressEmits_chain (evs : List ProgressEv) :
    ∀ (cp : ℚ) (last : ℤ), ticksNonneg evs → last ≤ jsRound cp →
    List.Chain' (· ≤ ·) (last :: progressEmits cp evs) := by
  induction evs with
  | nil =>
      intro cp last _ _
      simp [progressEmits]
  | cons e es ih =>
      intro cp last hne hle
      cases e with
      | engine p =>
          have hne' : ticksNonneg es := hne
          have hmax : last ≤ jsRound (max cp ((jsRound (p * 100) : ℤ) : ℚ)) :=
            le_trans hle (jsRound_mono (le_max_left _ _))
          simp only [progressEmits, progressStep, List.cons_append, List.nil_append]
          exact List.chain'_cons.mpr ⟨hmax, ih _ _ hne' le_rfl⟩
      | tick r =>
          obtain ⟨hr, hne'⟩ := hne
          by_cases hcp : cp < 85
          · simp only [progressEmits, progressStep, if_pos hcp, List.cons_append,
              List.nil_append]
            refine List.chain'_cons.mpr ⟨le_min ?_ ?_, ih _ _ hne' (min_le_left _ _)⟩
            · exact le_trans hle (jsRound_mono (by linarith))
            · exact le_trans hle (jsRound_le_85 hcp)
          · simp only [progressEmits, progressStep, if_neg hcp, List.nil_append]
            exact ih _ _ hne' hle

/-- The event sequence of the monotonicity test of the spec: fallback ticks
interleaved with the decreasing engine reports 0.1 then 0.05. -/
def specTestEvents : List ProgressEv :=
  [.tick (3/2), .engine (1/10), .tick 2, .engine (1/20)]

/-- C3: within one processing run, for every interleaving of
engine-reported progress fractions (decreasing ones included) with
fallback timer ticks carrying nonnegative random increments, the
sequence of progress values the tracker emits — the fixed prefix
0, 10, 15, 20 followed by the event-driven emissions from
currentProgress 20 — is non-decreasing, and every value the fallback
tick path emits is at most 85, below the 90 percent cap the claim
names. -/
theorem progress_monotone (evs : List ProgressEv) (cp r : ℚ)
    (h : ticksNonneg evs) :
    List.Chain' (· ≤ ·) ((0 : ℤ) :: 10 :: 15 :: 20 :: progressEmits 20 evs) ∧
    ((progressStep cp (ProgressEv.tick r)).2).all (fun z => decide (z ≤ 85)) = true := by
  constructor
  · have h20 : (20 : ℤ) ≤ jsRound (20 : ℚ) := by
      rw [jsRound]
      rw [show (20 : ℚ) + 1/2 = (41 : ℚ) / 2 by norm_num]
      rw [show (20 : ℤ) = ⌊(40 : ℚ) / 2⌋ by norm_num]
      exact Int.floor_le_floor (by norm_num)
    have hchain := progressEmits_chain evs 20 20 h h20
    exact List.chain'_cons.mpr ⟨by norm_num,
      List.chain'_cons.mpr ⟨by norm_num,
        List.chain'_cons.mpr ⟨by norm_num, hchain⟩⟩⟩
  · by_cases hcp : cp < 85
    · simp [progressStep, if_pos hcp, min_le_right]
    · simp [progressStep, if_neg hcp]

/-- Witness for C3 at the test interleaving of the spec (ticks of 1.5 and 2
around engine reports 0.1 then 0.05) and a tick of 1 at
currentProgress 20. -/
theorem progress_monotone_witness :
    List.Chain' (· ≤ ·) ((0 : ℤ) :: 10 :: 15 :: 20 :: progressEmits 20 specTestEvents) ∧
    ((progressStep 20 (ProgressEv.tick 1)).2).all (fun z => decide (z ≤ 85)) = true :=
  progress_monotone specTestEvents 20 1
    (by refine ⟨by norm_num, by norm_num, ?_⟩; simp [ticksNonneg])

/-- A list of post-catch tick states headed by any state whose
isProcessing flag is false ends in a state whose isProcessing flag is
false. -/
theorem finalIsProcessing_cons_posts (zs : List ℤ) :
    ∀ st : EnhancedVideoEditor.ProcessingState, st.isProcessing = false →
    EnhancedVideoEditor.finalIsProcessing
      (st :: zs.map EnhancedVideoEditor.postState) = false := by
  induction zs with
  | nil =>
      intro st h
      simpa [EnhancedVideoEditor.finalIsProcessing] using h
  | cons z zs ih =>
      intro st h
      show EnhancedVideoEditor.finalIsProcessing
        (st :: EnhancedVideoEditor.postState z ::
          zs.map EnhancedVideoEditor.postState) = false
      unfold EnhancedVideoEditor.finalIsProcessing
      rw [List.getLast?_cons_cons]
      exact ih (EnhancedVideoEditor.postState z) rfl

/-- C7 counterexample: when the engine throws during exec with no
earlier engine reports (currentProgress 20) and one post-catch fallback
tick of increment 5 fires, the last ProcessingState written is
{isProcessing false, progress 25, stage "Processing video... 25%"},
not the reset state {false, 0, "Error occurred"} the claim asserts:
the catch block never clears the fallback interval. -/
theorem failure_reset_overwritten_counterexample :
    (EnhancedVideoEditor.trimVideoStates [] [5]
      (some EnhancedVideoEditor.FailPoint.exec)).getLast? =
      some (EnhancedVideoEditor.postState 25) ∧
    EnhancedVideoEditor.postState 25 ≠ EnhancedVideoEditor.errorState := by
  constructor
  · have h25 : jsRound ((20 : ℚ) + 5) = 25 := by
      simp only [jsRound]
      rw [Int.floor_eq_iff]
      constructor <;> norm_num
    have hmin : min (jsRound ((20 : ℚ) + 5)) 85 = 25 := by
      rw [h25]
      norm_num
    simp only [EnhancedVideoEditor.trimVideoStates, progressEmits, progressStep,
      EnhancedVideoEditor.progressFinalCp]
    rw [if_pos (by norm_num : (20 : ℚ) < 85)]
    simp [hmin]
  · simp [EnhancedVideoEditor.postState, EnhancedVideoEditor.errorState]

/-- C7 (amended): whenever a processing run fails, the catch block does
write the reset state (isProcessing false, progress 0, stage
"Error occurred"), and on every failure path — with any post-catch
fallback ticks — the last state written has isProcessing false, so no
failure path leaves isProcessing stuck true; but because clearInterval
is only reached inside the try block, an exec failure leaves the
fallback interval running and its later ticks overwrite progress and
stage, so only on the non-exec failure paths is the reset state also
the last state written. -/
theorem failure_resets_processing (events : List ProgressEv)
    (postTicks : List ℚ) (fp : EnhancedVideoEditor.FailPoint) :
    EnhancedVideoEditor.errorState ∈
      EnhancedVideoEditor.trimVideoStates events postTicks (some fp) ∧
    EnhancedVideoEditor.finalIsProcessing
      (EnhancedVideoEditor.trimVideoStates events postTicks (some fp)) = false ∧
    (fp ≠ EnhancedVideoEditor.FailPoint.exec →
      (EnhancedVideoEditor.trimVideoStates events postTicks (some fp)).getLast? =
        some EnhancedVideoEditor.errorState) := by
  have hlast : ∀ (a : EnhancedVideoEditor.ProcessingState)
      (m l₂ : List EnhancedVideoEditor.ProcessingState), l₂ ≠ [] →
      (a :: (m ++ l₂)).getLast? = l₂.getLast? := by
    intro a m l₂ h
    rw [← List.cons_append]
    exact List.getLast?_append_of_ne_nil _ h
  refine ⟨?_, ?_, ?_⟩
  · cases fp <;> simp [EnhancedVideoEditor.trimVideoStates]
  · cases fp
    case writeFile => simp [EnhancedVideoEditor.trimVideoStates,
      EnhancedVideoEditor.finalIsProcessing, EnhancedVideoEditor.errorState]
    case exec =>
      simp only [EnhancedVideoEditor.trimVideoStates, List.cons_append,
        List.nil_append, List.append_assoc]
      unfold EnhancedVideoEditor.finalIsProcessing
      rw [List.getLast?_cons_cons, List.getLast?_cons_cons,
        List.getLast?_cons_cons, ← List.cons_append, List.getLast?_append_cons]
      exact finalIsProcessing_cons_posts _ _ rfl
    all_goals
      simp only [EnhancedVideoEditor.trimVideoStates, List.cons_append,
        List.nil_append, List.append_assoc]
      unfold EnhancedVideoEditor.finalIsProcessing
      rw [List.getLast?_cons_cons, List.getLast?_cons_cons,
        List.getLast?_cons_cons, hlast _ _ _ (by simp)]
      rfl
  · intro hne
    cases fp
    case exec => exact absurd rfl hne
    case writeFile => simp [EnhancedVideoEditor.trimVideoStates]
    all_goals
      simp only [EnhancedVideoEditor.trimVideoStates, List.cons_append,
        List.nil_append, List.append_assoc]
      rw [List.getLast?_cons_cons, List.getLast?_cons_cons,
        List.getLast?_cons_cons, hlast _ _ _ (by simp)]
      rfl

/-- Witness for C7 (amended) at a readFile failure with no engine
events and one pending tick increment. -/
theorem failure_resets_processing_witness :
    EnhancedVideoEditor.errorState ∈
      EnhancedVideoEditor.trimVideoStates [] [5]
        (some EnhancedVideoEditor.FailPoint.readFile) ∧
    EnhancedVideoEditor.finalIsProcessing
      (EnhancedVideoEditor.trimVideoStates [] [5]
        (some EnhancedVideoEditor.FailPoint.readFile)) = false ∧
    (EnhancedVideoEditor.trimVideoStates [] [5]
      (some EnhancedVideoEditor.FailPoint.readFile)).getLast? =
      some EnhancedVideoEditor.errorState := by
  obtain ⟨a, b, c⟩ :=
    failure_resets_processing [] [5] EnhancedVideoEditor.FailPoint.readFile
  exact ⟨a, b, c (by simp)⟩

end VideoApp
